import Mathlib

/-!
Verification of the `mini_telemetry` core (`src/mini_telemetry.py`):
the `MiniTrace` span tracker, the `MiniMetrics` aggregator and the
`MiniLogger` correlated logger, shallowly embedded as pure Lean functions.

Modelling conventions, applied uniformly:
* Python `uuid4` identifiers are modelled by a fresh counter in the state
  (`nextId`); the only property the code relies on is uniqueness.
* Wall-clock values (`time.time()`, `datetime.now()`, `start_time`,
  `end_time`, `duration_ms`, the time-based `_check_report` auto-flush and
  timestamps inside events/records) are not modelled: timestamps are opaque
  strings passed in by the caller, and durations are dropped from span
  records.  No claim under verification depends on clock values.
* Python dictionaries are modelled as insertion-ordered association lists
  with Python-dict assignment semantics (`setA`: overwrite in place when the
  key exists, append otherwise) and `del`/membership as key filtering and
  lookup.  `print` sinks are modelled as ghost output lists in the state.
* A Python statement that would raise (dict subscript on a missing key) is
  modelled with `Except`.
-/

namespace MiniTelemetry

/-- A span record, as built in `MiniTrace.start_span`
(fields `trace_id`, `span_id`, `parent_span_id`, `name`, `events`;
timing fields omitted, events keep their names). -/
structure SpanData where
  trace_id : Option Nat
  span_id : Nat
  parent_span_id : Option Nat
  name : String
  events : List String
deriving DecidableEq

/-- An entry of `MiniTrace.active_spans`: the span data plus the saved
previous current-span id (`parent_id`). -/
structure ActiveEntry where
  span : SpanData
  parent_id : Option Nat
deriving DecidableEq

/-- The mutable state of a `MiniTrace`, plus two ghost observation logs:
`opened` records every id returned by `start_span`, and `emitted` records
every `_print_trace` call (trace id and span list). -/
structure TState where
  current_trace_id : Option Nat
  current_span_id : Option Nat
  spans : List SpanData
  active_spans : List (Nat × ActiveEntry)
  nextId : Nat
  opened : List Nat
  emitted : List (Option Nat × List SpanData)
deriving DecidableEq

/-- A fresh `MiniTrace` (`MiniTrace.__init__`), with the id counter at `n`. -/
def initState (n : Nat) : TState :=
  ⟨none, none, [], [], n, [], []⟩

/-- Dictionary lookup on the active-span registry. -/
def lookupA (l : List (Nat × ActiveEntry)) (k : Nat) : Option ActiveEntry :=
  (l.find? (fun p => p.1 = k)).map (fun p => p.2)

/-- Python-dict assignment: overwrite the entry in place when the key is
present, append a new entry otherwise. -/
def setA (l : List (Nat × ActiveEntry)) (k : Nat) (v : ActiveEntry) :
    List (Nat × ActiveEntry) :=
  if (lookupA l k).isSome then
    l.map (fun p => if p.1 = k then (k, v) else p)
  else
    l ++ [(k, v)]

/-- Python-dict `del` (keys are unique in every reachable state). -/
def eraseA (l : List (Nat × ActiveEntry)) (k : Nat) : List (Nat × ActiveEntry) :=
  l.filter (fun p => decide ¬ p.1 = k)

/-- Model of `MiniTrace.start_trace`: install a fresh trace id. -/
def start_trace (st : TState) : TState :=
  { st with current_trace_id := some st.nextId, nextId := st.nextId + 1 }

/-- Model of `MiniTrace.start_span`: start a trace if none is active, create the span
with the current span as parent, register it, and make it current.  Returns
the new span id together with the new state. -/
def start_span (st : TState) (name : String) : Nat × TState :=
  let st := if st.current_trace_id = none then start_trace st else st
  let sid := st.nextId
  let span : SpanData := ⟨st.current_trace_id, sid, st.current_span_id, name, []⟩
  let entry : ActiveEntry := ⟨span, st.current_span_id⟩
  (sid, { st with
            nextId := st.nextId + 1,
            current_span_id := some sid,
            active_spans := setA st.active_spans sid entry,
            opened := st.opened ++ [sid] })

/-- Model of `MiniTrace.end_span`: default to the current span when no id is given;
silently return when the id is not in the open registry; otherwise move the
span to the completed list, restore the saved parent as current, and when
the restored parent is null emit the accumulated trace (`_print_trace`) and
clear the trace id. -/
def end_span (st : TState) (arg : Option Nat) : TState :=
  let sid? := match arg with
    | none => st.current_span_id
    | some s => some s
  match sid? with
  | none => st
  | some sid =>
    match lookupA st.active_spans sid with
    | none => st
    | some entry =>
      let spans1 := st.spans ++ [entry.span]
      let act1 := eraseA st.active_spans sid
      match entry.parent_id with
      | none =>
          { st with
              spans := [],
              active_spans := act1,
              current_span_id := none,
              current_trace_id := none,
              emitted := st.emitted ++ [(st.current_trace_id, spans1)] }
      | some p =>
          { st with
              spans := spans1,
              active_spans := act1,
              current_span_id := some p }

/-- Model of `MiniTrace.add_event`: no-op when the current-span pointer is null,
otherwise a raw dictionary subscript of `active_spans` at the current
pointer — which raises `KeyError` when the pointer is stale (not a key of
the registry). -/
def add_event (st : TState) (name : String) : Except String TState :=
  match st.current_span_id with
  | none => .ok st
  | some cur =>
    match lookupA st.active_spans cur with
    | none => .error "KeyError"
    | some entry =>
      let entry1 : ActiveEntry :=
        { entry with span := { entry.span with events := entry.span.events ++ [name] } }
      .ok { st with active_spans := setA st.active_spans cur entry1 }

/-! ### Characterizations of `end_span` -/

theorem end_span_of_not_mem (st : TState) (sid : Nat)
    (h : lookupA st.active_spans sid = none) :
    end_span st (some sid) = st := by
  unfold end_span
  dsimp only
  rw [h]

theorem end_span_of_mem (st : TState) (sid : Nat) (e : ActiveEntry) (p : Nat)
    (h : lookupA st.active_spans sid = some e) (hp : e.parent_id = some p) :
    end_span st (some sid) =
      { st with spans := st.spans ++ [e.span],
                active_spans := eraseA st.active_spans sid,
                current_span_id := some p } := by
  unfold end_span
  dsimp only
  rw [h]
  dsimp only
  rw [hp]

/-! ### Concrete scenario: root closed while its child is still open

`start_span "A"` (root, id 1, trace 0), `start_span "B"` (child, id 2),
`end_span(A)` — the root closes while B is open, then `end_span(B)`. -/

/-- State after opening the root span "A" (span id 1, trace id 0). -/
def stA : Nat × TState := start_span (initState 0) "A"

/-- State after additionally opening the child span "B" (span id 2). -/
def stAB : Nat × TState := start_span stA.2 "B"

/-- State after closing the root "A" while the child "B" is still open:
the trace is emitted with only "A", and "B" is orphaned in the registry. -/
def c7OrphanState : TState := end_span stAB.2 (some stA.1)

/-- The orphaned child's registry entry in `c7OrphanState`. -/
def c7ChildEntry : ActiveEntry := ⟨⟨some 0, 2, some 1, "B", []⟩, some 1⟩

/-- State after additionally closing the orphaned child "B": the
current-span pointer is restored to the already-closed root's id 1,
which is no longer a key of the registry. -/
def c5StaleState : TState := end_span c7OrphanState (some stAB.1)

/-! ### Claim C5 -/

/-- C5: the claim says `add_event` never raises on any reachable state,
including states reached through out-of-order `end_span` calls with
explicit ids.  The code violates this: after `start_span "A"`,
`start_span "B"`, `end_span(A)`, `end_span(B)`, the current-span pointer is
restored to the already-closed root's id 1, which is no longer a key of
`active_spans`, so `add_event`'s dictionary subscript raises `KeyError`. -/
theorem c5_add_event_raises :
    c5StaleState.current_span_id = some 1 ∧
    lookupA c5StaleState.active_spans 1 = none ∧
    add_event c5StaleState "boom" = Except.error "KeyError" :=
  ⟨by decide, by decide, rfl⟩

/-! ### Claim C7 -/

/-- C7 counterexample: the claim says a later `end_span` on an orphaned
descendant (here the child "B", id 2, orphaned by closing the root "A"
first) is a no-op leaving pointer, registry and completed buffer unchanged.
In fact all three change: the child is still a key of the registry, so the
close proceeds. -/
theorem c7_orphan_end_changes_state :
    (end_span c7OrphanState (some 2)).spans ≠ c7OrphanState.spans ∧
    (end_span c7OrphanState (some 2)).active_spans ≠ c7OrphanState.active_spans ∧
    (end_span c7OrphanState (some 2)).current_span_id ≠ c7OrphanState.current_span_id := by
  refine ⟨?_, ?_, ?_⟩ <;> decide

/-- C7 (amended): a later `end_span` on an orphaned descendant is NOT
treated as already-invalid — the descendant is still a key of the open
registry, so the call completes it normally: it appends the span to the
completed buffer, removes it from the registry, and restores the
active-span pointer to the descendant's recorded (already-closed) parent
id. -/
theorem c7_orphan_end_completes (st : TState) (sid : Nat) (e : ActiveEntry) (p : Nat)
    (h : lookupA st.active_spans sid = some e) (hp : e.parent_id = some p) :
    end_span st (some sid) =
      { st with spans := st.spans ++ [e.span],
                active_spans := eraseA st.active_spans sid,
                current_span_id := some p } :=
  end_span_of_mem st sid e p h hp

/-- C7 witness: the amended theorem applied to the concrete orphan
scenario (closing the orphaned child "B", span id 2, whose recorded parent
is the already-closed root id 1). -/
theorem c7_orphan_end_completes_witness :
    end_span c7OrphanState (some 2) =
      { c7OrphanState with
          spans := c7OrphanState.spans ++ [c7ChildEntry.span],
          active_spans := eraseA c7OrphanState.active_spans 2,
          current_span_id := some 1 } :=
  c7_orphan_end_completes c7OrphanState 2 c7ChildEntry 1 (by decide) (by decide)

/-! ### Claim C8 -/

/-- C8: for every state of `MiniTrace` and every span id that is not a key
of the open registry, `end_span` with that id is a no-op: it does not raise
(the function is total) and the whole state — active-span pointer, open
registry and completed-span list included — is unchanged. -/
theorem c8_end_unknown_noop (st : TState) (sid : Nat)
    (h : lookupA st.active_spans sid = none) :
    end_span st (some sid) = st :=
  end_span_of_not_mem st sid h

/-- C8 witness: ending the unknown id 5 in the state with only span "A"
(id 1) open leaves the state unchanged. -/
theorem c8_end_unknown_noop_witness : end_span stA.2 (some 5) = stA.2 :=
  c8_end_unknown_noop stA.2 5 (by decide)

/-! ### Association-list helper lemmas -/

/-- The keys of the open registry, in insertion order. -/
def keysOf (l : List (Nat × ActiveEntry)) : List Nat := l.map Prod.fst

theorem lookupA_not_mem (l : List (Nat × ActiveEntry)) (k : Nat)
    (h : k ∉ keysOf l) : lookupA l k = none := by
  induction l with
  | nil => rfl
  | cons a l ih =>
    simp only [keysOf, List.map_cons, List.mem_cons, not_or] at h
    simp only [lookupA, List.find?]
    rw [show (decide (a.1 = k)) = false by simpa using fun hh => h.1 hh.symm]
    exact ih h.2

theorem lookupA_append_self (l : List (Nat × ActiveEntry)) (k : Nat) (e : ActiveEntry)
    (h : k ∉ keysOf l) : lookupA (l ++ [(k, e)]) k = some e := by
  induction l with
  | nil => simp [lookupA, List.find?]
  | cons a l ih =>
    simp only [keysOf, List.map_cons, List.mem_cons, not_or] at h
    simp only [lookupA, List.cons_append, List.find?]
    rw [show (decide (a.1 = k)) = false by simpa using fun hh => h.1 hh.symm]
    exact ih h.2

theorem eraseA_append_self (l : List (Nat × ActiveEntry)) (k : Nat) (e : ActiveEntry)
    (h : k ∉ keysOf l) : eraseA (l ++ [(k, e)]) k = l := by
  unfold eraseA
  rw [List.filter_append]
  have h1 : List.filter (fun p => decide ¬ p.1 = k) l = l := by
    rw [List.filter_eq_self]
    intro a ha
    simp only [decide_eq_true_eq]
    intro hh
    exact h (by simp only [keysOf]; exact List.mem_map.mpr ⟨a, ha, hh⟩)
  have h2 : List.filter (fun p => decide ¬ p.1 = k) [(k, e)] = [] := by
    simp [List.filter]
  rw [h1, h2, List.append_nil]

theorem setA_not_mem (l : List (Nat × ActiveEntry)) (k : Nat) (e : ActiveEntry)
    (h : k ∉ keysOf l) : setA l k e = l ++ [(k, e)] := by
  unfold setA
  rw [lookupA_not_mem l k h]
  rfl

/-! ### Claim C4: the stack-discipline invariant -/

/-- The chain invariant of the open registry: reading the registry in
insertion order starting from `base`, each entry's saved parent is the
previous entry's id (`base` for the first), and `cur` is the last entry's
id (`base` when the registry is empty). -/
def stackInv (base : Option Nat) : List (Nat × ActiveEntry) → Option Nat → Prop
  | [], cur => cur = base
  | (sid, e) :: rest, cur => e.parent_id = base ∧ stackInv (some sid) rest cur

/-- The reachable-state invariant for stack-disciplined call sequences:
the registry is a parent chain ending at the current pointer, its keys are
distinct, and all keys are below the fresh-id counter. -/
def TInv (st : TState) : Prop :=
  stackInv none st.active_spans st.current_span_id ∧
  (keysOf st.active_spans).Nodup ∧
  ∀ k ∈ keysOf st.active_spans, k < st.nextId

theorem stackInv_push (l : List (Nat × ActiveEntry)) :
    ∀ (base cur : Option Nat) (sid : Nat) (e : ActiveEntry),
      stackInv base l cur → e.parent_id = cur →
      stackInv base (l ++ [(sid, e)]) (some sid) := by
  induction l with
  | nil =>
    intro base cur sid e h he
    subst h
    exact ⟨he, rfl⟩
  | cons a l ih =>
    intro base cur sid e h he
    obtain ⟨h1, h2⟩ := h
    exact ⟨h1, ih _ _ _ _ h2 he⟩

theorem stackInv_pop (l : List (Nat × ActiveEntry)) :
    ∀ (base cur : Option Nat) (sid : Nat) (e : ActiveEntry),
      stackInv base (l ++ [(sid, e)]) cur →
      cur = some sid ∧ stackInv base l e.parent_id := by
  induction l with
  | nil =>
    intro base cur sid e h
    exact ⟨h.2, h.1⟩
  | cons a l ih =>
    intro base cur sid e h
    obtain ⟨h1, h2⟩ := h
    obtain ⟨h3, h4⟩ := ih _ _ _ _ h2
    exact ⟨h3, h1, h4⟩

theorem stackInv_last (l : List (Nat × ActiveEntry)) :
    ∀ (base cur : Option Nat), stackInv base l cur →
      cur = ((keysOf l).getLast?).elim base some := by
  induction l with
  | nil => intro base cur h; exact h
  | cons a l ih =>
    intro base cur h
    obtain ⟨_, h2⟩ := h
    have := ih _ _ h2
    cases l with
    | nil => simpa [keysOf] using this
    | cons b l => simpa [keysOf, List.getLast?_cons_cons] using this

theorem TInv_init (n : Nat) : TInv (initState n) :=
  ⟨rfl, List.nodup_nil, by intro k hk; simp [initState, keysOf] at hk⟩

theorem TInv_start (st : TState) (nm : String) (h : TInv st) :
    TInv (start_span st nm).2 := by
  obtain ⟨hstack, hnd, hlt⟩ := h
  unfold start_span
  dsimp only
  set st1 := if st.current_trace_id = none then start_trace st else st with hst1
  have hact : st1.active_spans = st.active_spans := by
    by_cases hc : st.current_trace_id = none <;> simp [hst1, hc, start_trace]
  have hcur : st1.current_span_id = st.current_span_id := by
    by_cases hc : st.current_trace_id = none <;> simp [hst1, hc, start_trace]
  have hnid : st.nextId ≤ st1.nextId := by
    by_cases hc : st.current_trace_id = none <;> simp [hst1, hc, start_trace]
  have hfresh : st1.nextId ∉ keysOf st1.active_spans := by
    rw [hact]
    intro hk
    have := hlt _ hk
    omega
  rw [setA_not_mem _ _ _ hfresh]
  refine ⟨?_, ?_, ?_⟩
  · dsimp only
    exact stackInv_push _ _ _ _ _ (by rw [hact, hcur]; exact hstack) rfl
  · dsimp only
    simp only [keysOf, List.map_append, List.map_cons, List.map_nil]
    rw [List.nodup_append]
    refine ⟨by rw [hact] at *; exact hnd, List.nodup_singleton _, ?_⟩
    intro a ha hb
    simp only [List.mem_singleton] at hb
    subst hb
    exact hfresh ha
  · dsimp only
    intro k hk
    simp only [keysOf, List.map_append, List.map_cons, List.map_nil,
      List.mem_append, List.mem_singleton] at hk
    rcases hk with hk | hk
    · have : k < st.nextId := hlt _ (by rw [hact] at hk; exact hk)
      omega
    · omega

theorem TInv_endCur (st : TState) (h : TInv st) : TInv (end_span st none) := by
  obtain ⟨hstack, hnd, hlt⟩ := h
  cases hcur : st.current_span_id with
  | none =>
    have heq : end_span st none = st := by
      unfold end_span
      dsimp only
      rw [hcur]
    rw [heq]
    exact ⟨hstack, hnd, hlt⟩
  | some sid =>
    rcases List.eq_nil_or_concat st.active_spans with hnil | ⟨l, b, hdec⟩
    · exfalso
      have hlast := stackInv_last _ _ _ hstack
      rw [hcur, hnil] at hlast
      simp [keysOf] at hlast
    · obtain ⟨sid1, e⟩ := b
      rw [List.concat_eq_append] at hdec
      have hstack1 := hstack
      rw [hcur, hdec] at hstack1
      obtain ⟨hc, hrest⟩ := stackInv_pop _ _ _ _ _ hstack1
      have hsid : sid = sid1 := by injection hc
      subst hsid
      have hfr : sid ∉ keysOf l := by
        rw [hdec] at hnd
        simp only [keysOf, List.map_append, List.map_cons, List.map_nil,
          List.nodup_append, List.disjoint_singleton] at hnd
        simpa [keysOf] using hnd.2.2
      have hlook : lookupA st.active_spans sid = some e := by
        rw [hdec]
        exact lookupA_append_self _ _ _ hfr
      have herase : eraseA st.active_spans sid = l := by
        rw [hdec]
        exact eraseA_append_self _ _ _ hfr
      have hkeys1 : ∀ k ∈ keysOf l, k < st.nextId := by
        intro k hk
        refine hlt _ ?_
        rw [hdec]
        simp only [keysOf, List.map_append, List.mem_append]
        exact Or.inl hk
      have hnd1 : (keysOf l).Nodup := by
        rw [hdec] at hnd
        simp only [keysOf, List.map_append, List.nodup_append] at hnd
        exact hnd.1
      unfold end_span
      dsimp only
      rw [hcur]
      dsimp only
      rw [hlook]
      dsimp only
      cases hp : e.parent_id with
      | none =>
        rw [herase]
        exact ⟨by rw [hp] at hrest; exact hrest, hnd1, hkeys1⟩
      | some p =>
        rw [herase]
        exact ⟨by rw [hp] at hrest; exact hrest, hnd1, hkeys1⟩

/-- One operation of a stack-disciplined call sequence: `start_span` with a
name, or `end_span` targeting the currently active span (the Python
default-argument form `end_span()`). -/
inductive SOp where
  | start : String → SOp
  | endCur : SOp
deriving DecidableEq

/-- Run one stack-disciplined operation on a `MiniTrace` state. -/
def runOp (st : TState) : SOp → TState
  | .start nm => (start_span st nm).2
  | .endCur => end_span st none

/-- Run a stack-disciplined call sequence left to right. -/
def runOps (st : TState) (ops : List SOp) : TState := ops.foldl runOp st

theorem TInv_runOps (ops : List SOp) :
    ∀ st : TState, TInv st → TInv (runOps st ops) := by
  induction ops with
  | nil => intro st h; exact h
  | cons op ops ih =>
    intro st h
    cases op with
    | start nm => exact ih _ (TInv_start st nm h)
    | endCur => exact ih _ (TInv_endCur st h)

/-- C4: after any stack-disciplined sequence of `start_span`/`end_span`
calls (each close targeting the currently active span) from a fresh
tracer, the active-span pointer equals the last key of the
insertion-ordered open registry — that is, the `span_id` of the open span
most recently opened and not yet closed — and is null exactly when the
registry is empty. -/
theorem c4_active_pointer_stack (ops : List SOp) (n : Nat) :
    (runOps (initState n) ops).current_span_id =
      (keysOf (runOps (initState n) ops).active_spans).getLast? := by
  have h := TInv_runOps ops (initState n) (TInv_init n)
  have hlast := stackInv_last _ _ _ h.1
  rw [hlast]
  cases (keysOf (runOps (initState n) ops).active_spans).getLast? <;> rfl

/-! ### Claim C3: well-nested traces are emitted whole -/

/-- A further `end_span` characterization: closing a registered span whose
saved parent is null emits the accumulated trace and resets the buffers. -/
theorem end_span_of_mem_root (st : TState) (sid : Nat) (e : ActiveEntry)
    (h : lookupA st.active_spans sid = some e) (hp : e.parent_id = none) :
    end_span st (some sid) =
      { st with spans := [],
                active_spans := eraseA st.active_spans sid,
                current_span_id := none,
                current_trace_id := none,
                emitted := st.emitted ++ [(st.current_trace_id, st.spans ++ [e.span])] } := by
  unfold end_span
  dsimp only
  rw [h]
  dsimp only
  rw [hp]

/-- All registry keys are below the fresh-id counter. -/
def keysLt (st : TState) : Prop := ∀ k ∈ keysOf st.active_spans, k < st.nextId

/-- A well-nested forest of spans: `nil`, or a span with a name, a forest
of children opened inside it, and a forest of later siblings.  Running a
forest performs exactly the stack-disciplined `start_span`/`end_span` call
sequence of its shape, at every nesting depth. -/
inductive Forest where
  | nil : Forest
  | node : String → Forest → Forest → Forest
deriving DecidableEq

/-- Number of spans in a forest. -/
def sizeF : Forest → Nat
  | .nil => 0
  | .node _ c s => 1 + sizeF c + sizeF s

/-- Execute a forest: open each node's span, run its children inside it,
close it, then run its siblings. -/
def runForest : Forest → TState → TState
  | .nil, st => st
  | .node nm c s, st =>
    let pr := start_span st nm
    runForest s (end_span (runForest c pr.2) (some pr.1))

/-- The completed spans a forest appends to `spans`, in close (post) order,
given the trace id, the parent pointer, and the next fresh id. -/
def expSpans : Forest → Nat → Option Nat → Nat → List SpanData
  | .nil, _, _, _ => []
  | .node nm c s, tid, par, n =>
    expSpans c tid (some n) (n + 1) ++ [⟨some tid, n, par, nm, []⟩] ++
      expSpans s tid par (n + 1 + sizeF c)

/-- The span ids a forest appends to the `opened` log, in open (pre) order,
given the next fresh id. -/
def expIds : Forest → Nat → List Nat
  | .nil, _ => []
  | .node _ c s, n => n :: (expIds c (n + 1) ++ expIds s (n + 1 + sizeF c))

theorem expSpans_length (f : Forest) :
    ∀ (tid : Nat) (par : Option Nat) (n : Nat),
      (expSpans f tid par n).length = sizeF f := by
  induction f with
  | nil => intro tid par n; rfl
  | node nm c s ihc ihs =>
    intro tid par n
    simp [expSpans, sizeF, ihc, ihs]
    omega

theorem expIds_length (f : Forest) : ∀ n : Nat, (expIds f n).length = sizeF f := by
  induction f with
  | nil => intro n; rfl
  | node nm c s ihc ihs =>
    intro n
    simp [expIds, sizeF, ihc, ihs]
    omega

theorem expSpans_ids_perm (f : Forest) :
    ∀ (tid : Nat) (par : Option Nat) (n : Nat),
      ((expSpans f tid par n).map SpanData.span_id).Perm (expIds f n) := by
  induction f with
  | nil => intro tid par n; rfl
  | node nm c s ihc ihs =>
    intro tid par n
    simp only [expSpans, expIds, List.map_append, List.map_cons, List.map_nil]
    have h1 : ((expSpans c tid (some n) (n + 1)).map SpanData.span_id ++ [n] ++
        (expSpans s tid par (n + 1 + sizeF c)).map SpanData.span_id).Perm
        (n :: ((expSpans c tid (some n) (n + 1)).map SpanData.span_id ++
          (expSpans s tid par (n + 1 + sizeF c)).map SpanData.span_id)) := by
      rw [List.append_assoc]
      exact List.perm_middle
    refine h1.trans (List.Perm.cons n ?_)
    exact List.Perm.append (ihc tid (some n) (n + 1)) (ihs tid par (n + 1 + sizeF c))

/-- Running a forest strictly below an open parent appends its completed
spans to the buffer and its ids to the `opened` log, advances the id
counter, and leaves every other component — active pointer, registry,
trace id, emitted log — untouched. -/
theorem runForest_under (f : Forest) :
    ∀ (st : TState) (p tid : Nat),
      st.current_span_id = some p →
      st.current_trace_id = some tid →
      keysLt st →
      runForest f st =
        { st with spans := st.spans ++ expSpans f tid (some p) st.nextId,
                  nextId := st.nextId + sizeF f,
                  opened := st.opened ++ expIds f st.nextId } := by
  induction f with
  | nil =>
    intro st p tid h1 h2 h3
    simp [runForest, expSpans, expIds, sizeF]
  | node nm c s ihc ihs =>
    intro st p tid h1 h2 h3
    obtain ⟨tr, cur, sps, act, nid, opn, em⟩ := st
    dsimp only at h1 h2 h3 ⊢
    subst h1
    subst h2
    have hfresh : nid ∉ keysOf act := by
      intro hk
      have := h3 _ hk
      dsimp only at this
      omega
    simp only [runForest]
    have hstart : start_span ⟨some tid, some p, sps, act, nid, opn, em⟩ nm =
        (nid, ⟨some tid, some nid, sps,
          act ++ [(nid, ⟨⟨some tid, nid, some p, nm, []⟩, some p⟩)],
          nid + 1, opn ++ [nid], em⟩) := by
      unfold start_span
      dsimp only
      rw [if_neg (by simp)]
      rw [setA_not_mem _ _ _ hfresh]
    rw [hstart]
    dsimp only
    rw [ihc _ nid tid rfl rfl ?side1]
    case side1 =>
      intro k hk
      dsimp only at hk ⊢
      simp only [keysOf, List.map_append, List.map_cons, List.map_nil,
        List.mem_append, List.mem_singleton] at hk
      rcases hk with hk | hk
      · have := h3 _ hk
        dsimp only at this
        omega
      · omega
    dsimp only
    rw [end_span_of_mem _ nid ⟨⟨some tid, nid, some p, nm, []⟩, some p⟩ p
      (by dsimp only; exact lookupA_append_self act nid _ hfresh) rfl]
    dsimp only
    rw [eraseA_append_self act nid _ hfresh]
    rw [ihs _ p tid rfl rfl ?side2]
    case side2 =>
      intro k hk
      dsimp only at hk ⊢
      have := h3 _ hk
      dsimp only at this
      omega
    simp only [expSpans, expIds, sizeF, TState.mk.injEq, List.append_assoc,
      List.cons_append, List.nil_append, List.singleton_append]
    repeat' apply And.intro
    all_goals first | trivial | rfl | omega

/-- The complete run of one well-nested trace (root span `nm` with child
forest `cs`) from a fresh tracer, computed in closed form: one emitted
trace, empty registry, cleared buffers. -/
theorem runForest_root (nm : String) (cs : Forest) (n : Nat) :
    runForest (.node nm cs .nil) (initState n) =
      ⟨none, none, [], [], n + 2 + sizeF cs,
        (n + 1) :: expIds cs (n + 2),
        [(some n, expSpans cs n (some (n + 1)) (n + 2) ++
          [⟨some n, n + 1, none, nm, []⟩])]⟩ := by
  simp only [runForest]
  have hstart : start_span (initState n) nm =
      (n + 1, ⟨some n, some (n + 1), [],
        [(n + 1, ⟨⟨some n, n + 1, none, nm, []⟩, none⟩)], n + 2, [n + 1], []⟩) := rfl
  rw [hstart]
  dsimp only
  rw [runForest_under cs _ (n + 1) n rfl rfl ?klt]
  case klt =>
    intro k hk
    simp only [keysOf, List.map_cons, List.map_nil, List.mem_singleton] at hk
    subst hk
    show n + 1 < n + 2
    omega
  dsimp only
  rw [end_span_of_mem_root _ (n + 1) ⟨⟨some n, n + 1, none, nm, []⟩, none⟩
    (lookupA_append_self [] (n + 1) _ (by simp [keysOf])) rfl]
  dsimp only
  have herase : eraseA [(n + 1, (⟨⟨some n, n + 1, none, nm, []⟩, none⟩ : ActiveEntry))]
      (n + 1) = ([] : List (Nat × ActiveEntry)) :=
    eraseA_append_self [] (n + 1) _ (by simp [keysOf])
  rw [herase]
  rfl

/-- C3: for every well-nested trace — a root span with an arbitrary forest
of descendants, of arbitrary nesting depth — closing the root span emits
exactly one trace, and the emitted span list contains every span opened
within the trace: equal to the `opened` log by count and, via a
permutation, by span-id set. -/
theorem c3_root_close_emits_trace (nm : String) (cs : Forest) (n : Nat) :
    (runForest (.node nm cs .nil) (initState n)).emitted.length = 1 ∧
    ∀ pr ∈ (runForest (.node nm cs .nil) (initState n)).emitted,
      pr.2.length = (runForest (.node nm cs .nil) (initState n)).opened.length ∧
      (pr.2.map SpanData.span_id).Perm (runForest (.node nm cs .nil) (initState n)).opened := by
  rw [runForest_root]
  refine ⟨rfl, ?_⟩
  intro pr hpr
  simp only [List.mem_singleton] at hpr
  subst hpr
  constructor
  · simp [expSpans_length, expIds_length]
  · dsimp only
    simp only [List.map_append, List.map_cons, List.map_nil]
    have h1 : ((expSpans cs n (some (n + 1)) (n + 2)).map SpanData.span_id ++
        [n + 1]).Perm
        ((n + 1) :: (expSpans cs n (some (n + 1)) (n + 2)).map SpanData.span_id) := by
      simp
    exact h1.trans (List.Perm.cons (n + 1) (expSpans_ids_perm cs n (some (n + 1)) (n + 2)))

/-! ## `MiniMetrics` (claims C1, C6, C10)

The aggregator state.  `last_report_time`/`report_interval` and the
wall-clock `_check_report` auto-flush are not modelled (clock-driven);
the claims under verification exercise the data path and an explicit
`report` call only. -/

/-- One counter series (`self.counters[key]`). -/
structure CounterE where
  name : String
  value : Int
  tags : List (String × String)
deriving DecidableEq

/-- One gauge series (`self.gauges[key]`). -/
structure GaugeE where
  name : String
  value : ℚ
  tags : List (String × String)
deriving DecidableEq

/-- One histogram series (`self.histograms[key]`).  Observed values are
modelled as exact rationals. -/
structure HistE where
  name : String
  values : List ℚ
  tags : List (String × String)
deriving DecidableEq

/-- The three series maps of a `MiniMetrics`, as insertion-ordered
association lists keyed by the series key. -/
structure MState where
  counters : List (String × CounterE)
  gauges : List (String × GaugeE)
  histograms : List (String × HistE)
deriving DecidableEq

/-- A fresh `MiniMetrics` (`MiniMetrics.__init__`). -/
def mEmpty : MState := ⟨[], [], []⟩

/-- Dictionary lookup on a string-keyed series map. -/
def lookupS {α : Type} (l : List (String × α)) (k : String) : Option α :=
  (l.find? (fun p => p.1 = k)).map Prod.snd

/-- Python-dict assignment on a string-keyed series map. -/
def setS {α : Type} (l : List (String × α)) (k : String) (v : α) : List (String × α) :=
  if (lookupS l k).isSome then l.map (fun p => if p.1 = k then (k, v) else p)
  else l ++ [(k, v)]

/-- Lexicographic order on tag pairs, as Python's `sorted` on
`(key, value)` tuples. -/
def pairLe (a b : String × String) : Bool :=
  decide (a.1 < b.1 ∨ (a.1 = b.1 ∧ ¬ b.2 < a.2))

/-- Insert one tag pair into a sorted tag list. -/
def insertPair (x : String × String) : List (String × String) → List (String × String)
  | [] => [x]
  | y :: ys => if pairLe x y then x :: y :: ys else y :: insertPair x ys

/-- Sort a tag list, as `sorted(tags.items())`. -/
def sortPairs : List (String × String) → List (String × String)
  | [] => []
  | x :: xs => insertPair x (sortPairs xs)

/-- Model of the key builder `MiniMetrics._get_key`: the bare name when the tag set is empty,
otherwise `name[k1=v1,k2=v2,...]` over the sorted tags. -/
def get_key (name : String) (tags : List (String × String)) : String :=
  if tags.isEmpty then name
  else name ++ "[" ++
    String.intercalate "," ((sortPairs tags).map (fun p => p.1 ++ "=" ++ p.2)) ++ "]"

/-- Model of `MiniMetrics.counter`: create the series at value 0 on first use, then
add `value`. -/
def counter (m : MState) (name : String) (value : Int)
    (tags : List (String × String)) : MState :=
  let key := get_key name tags
  let cs := if (lookupS m.counters key).isSome then m.counters
            else m.counters ++ [(key, ⟨name, 0, tags⟩)]
  { m with counters :=
      cs.map (fun p => if p.1 = key then (p.1, { p.2 with value := p.2.value + value }) else p) }

/-- Model of `MiniMetrics.gauge`: overwrite (or create) the series with `value`. -/
def gauge (m : MState) (name : String) (value : ℚ)
    (tags : List (String × String)) : MState :=
  { m with gauges := setS m.gauges (get_key name tags) ⟨name, value, tags⟩ }

/-- Model of `MiniMetrics.histogram`: create the series with an empty buffer on
first use, then append `value`. -/
def histogram (m : MState) (name : String) (value : ℚ)
    (tags : List (String × String)) : MState :=
  let key := get_key name tags
  let hs := if (lookupS m.histograms key).isSome then m.histograms
            else m.histograms ++ [(key, ⟨name, [], tags⟩)]
  { m with histograms :=
      hs.map (fun p => if p.1 = key then (p.1, { p.2 with values := p.2.values ++ [value] }) else p) }

/-- Insert a rational into a sorted list (ascending). -/
def insertQ (x : ℚ) : List ℚ → List ℚ
  | [] => [x]
  | y :: ys => if x ≤ y then x :: y :: ys else y :: insertQ x ys

/-- Insertion sort, modelling Python's `sorted(values)`. -/
def sortQ : List ℚ → List ℚ
  | [] => []
  | x :: xs => insertQ x (sortQ xs)

/-- Python `min(values)` over a non-empty list (0 for the unreachable
empty case). -/
def minQ : List ℚ → ℚ
  | [] => 0
  | x :: xs => xs.foldl min x

/-- Python `max(values)` over a non-empty list. -/
def maxQ : List ℚ → ℚ
  | [] => 0
  | x :: xs => xs.foldl max x

/-- Python `sum(values)`. -/
def sumQ (l : List ℚ) : ℚ := l.foldl (· + ·) 0

/-- One histogram summary as built in `MiniMetrics.report`. -/
structure HistSummary where
  name : String
  tags : List (String × String)
  count : Nat
  sum : ℚ
  min : ℚ
  max : ℚ
  avg : ℚ
  p50 : ℚ
  p90 : ℚ
  p99 : ℚ
deriving DecidableEq

/-- Summarize one histogram series, as `MiniMetrics.report` does:
`sorted_values[int(len * q)]` for the percentiles, with the p99 fallback
to the last (maximal) element when fewer than 100 samples exist.  Python
computes the index with binary floats (`int(len(v) * 0.5)` etc.); at every
count evaluated in this file that coincides with the exact rational floor
`len * q` in integer arithmetic used here. -/
def histSummary (h : HistE) : HistSummary :=
  let sorted := sortQ h.values
  let count := h.values.length
  { name := h.name, tags := h.tags, count := count,
    sum := sumQ h.values, min := minQ h.values, max := maxQ h.values,
    avg := sumQ h.values / (count : ℚ),
    p50 := sorted.getD (count / 2) 0,
    p90 := sorted.getD (count * 9 / 10) 0,
    p99 := if 100 ≤ count then sorted.getD (count * 99 / 100) 0
           else sorted.getLastD 0 }

/-- The payload of one `[METRICS]` report line (timestamp omitted). -/
structure MetricsReport where
  counters : List CounterE
  gauges : List GaugeE
  histograms : List HistSummary
deriving DecidableEq

/-- Model of `MiniMetrics.report`: snapshot counters and gauges, summarize every
histogram series with a non-empty buffer (in insertion order), and reset
the histogram map. -/
def report (m : MState) : MetricsReport × MState :=
  ({ counters := m.counters.map Prod.snd,
     gauges := m.gauges.map Prod.snd,
     histograms :=
       ((m.histograms.map Prod.snd).filter (fun h => !h.values.isEmpty)).map histSummary },
   { m with histograms := [] })

/-! ### Claim C1 -/

set_option maxRecDepth 100000

/-- The observations of the C1 scenario: each integer from 1 to 100, as
exact rationals. -/
def c1Values : List ℚ :=
  [1, 2, 3, 4, 5, 6, 7, 8, 9, 10, 11, 12, 13, 14, 15, 16, 17, 18, 19, 20, 21, 22, 23, 24, 25, 26, 27, 28, 29, 30, 31, 32, 33, 34, 35, 36, 37, 38, 39, 40, 41, 42, 43, 44, 45, 46, 47, 48, 49, 50, 51, 52, 53, 54, 55, 56, 57, 58, 59, 60, 61, 62, 63, 64, 65, 66, 67, 68, 69, 70, 71, 72, 73, 74, 75, 76, 77, 78, 79, 80, 81, 82, 83, 84, 85, 86, 87, 88, 89, 90, 91, 92, 93, 94, 95, 96, 97, 98, 99, 100]

/-- A fresh aggregator after `histogram "h" v` for each integer `v` from 1
to 100 (no tags). -/
def c1State : MState :=
  c1Values.foldl (fun m v => histogram m "h" v []) mEmpty

/-- The C1 scenario's flush, evaluated in closed form.  (`Rat` addition and
division are not kernel-reducible, so the sum and mean are settled by
`norm_num` and the rest by `decide`.) -/
theorem c1_summary_eval :
    (report c1State).1.histograms =
      [⟨"h", [], 100, 5050, 1, 100, 101 / 2, 51, 91, 100⟩] := by
  have h1 : (report c1State).1.histograms = [histSummary ⟨"h", c1Values, []⟩] := by
    rfl
  rw [h1]
  have hs : sortQ c1Values = c1Values := by decide
  have hsum : sumQ c1Values = 5050 := by
    norm_num [sumQ, c1Values]
  have hlen : c1Values.length = 100 := by rfl
  have h2 : histSummary ⟨"h", c1Values, []⟩ =
      ⟨"h", [], 100, 5050, 1, 100, 101 / 2, 51, 91, 100⟩ := by
    unfold histSummary
    dsimp only
    rw [hs, hsum, hlen]
    rw [HistSummary.mk.injEq]
    refine ⟨rfl, rfl, rfl, rfl, by decide, by decide, by norm_num, by decide, by decide, by decide⟩
  rw [h2]

/-- C1 counterexample: the claim states `p50 = 50, p90 = 90, p99 = 99` for
this series.  The code's nearest-rank selection `sorted_values[int(count * q)]`
over the 0-indexed sorted buffer returns `51, 91, 100` instead (rank 50 of
`[1..100]` is the value 51, and for `count = 100` the p99 branch takes
`sorted_values[99] = 100`). -/
theorem c1_percentiles_counterexample :
    ((report c1State).1.histograms.map (fun s => (s.p50, s.p90, s.p99))) =
      [((51 : ℚ), (91 : ℚ), (100 : ℚ))] ∧
    ¬ ((51 : ℚ) = 50 ∧ (91 : ℚ) = 90 ∧ (100 : ℚ) = 99) := by
  constructor
  · rw [c1_summary_eval]
    rfl
  · decide

/-- C1 (amended): for the fresh series with observations 1..100, `report`
emits exactly one histogram summary for "h", with `count = 100`,
`sum = 5050`, `min = 1`, `max = 100`, `mean = 50.5`, and nearest-rank
percentiles `p50 = 51`, `p90 = 91`, `p99 = 100` (the sorted buffer's
element at rank `floor(count * percentile)`, which stays within bounds
without clamping here). -/
theorem c1_flush_summary :
    (report c1State).1.histograms =
      [⟨"h", [], 100, 5050, 1, 100, 101 / 2, 51, 91, 100⟩] :=
  c1_summary_eval

/-! ### Claim C6 -/

theorem lookupS_map_set {α : Type} (l : List (String × α)) (k : String) (v : α)
    (h : (lookupS l k).isSome) :
    lookupS (l.map (fun p => if p.1 = k then (k, v) else p)) k = some v := by
  induction l with
  | nil => simp [lookupS] at h
  | cons a l ih =>
    by_cases hk : a.1 = k
    · simp [lookupS, List.find?, hk]
    · simp only [List.map_cons]
      rw [if_neg hk]
      simp only [lookupS, List.find?] at h ⊢
      rw [show (decide (a.1 = k)) = false by simpa using hk] at h ⊢
      exact ih h

theorem lookupS_append_fresh {α : Type} (l : List (String × α)) (k : String) (v : α)
    (h : lookupS l k = none) : lookupS (l ++ [(k, v)]) k = some v := by
  induction l with
  | nil => simp [lookupS, List.find?]
  | cons a l ih =>
    simp only [lookupS, List.find?, List.cons_append] at h ⊢
    cases hd : decide (a.1 = k) with
    | true => rw [hd] at h; simp at h
    | false => rw [hd] at h; exact ih h

theorem lookupS_setS {α : Type} (l : List (String × α)) (k : String) (v : α) :
    lookupS (setS l k v) k = some v := by
  unfold setS
  cases hx : lookupS l k with
  | some w =>
    rw [if_pos (by rfl)]
    exact lookupS_map_set l k v (by rw [hx]; rfl)
  | none =>
    rw [if_neg (by simp)]
    exact lookupS_append_fresh l k v hx

/-- C6 counterexample: registering `"x"` first as a counter and then as a
gauge (same empty tag set) raises no configuration error — the operations
are total — and both series are silently maintained, the counter keeping
its value 1 and the gauge being created at 5. -/
theorem c6_mixed_kinds_no_error :
    lookupS (gauge (counter mEmpty "x" 1 []) "x" 5 []).counters "x" =
      some ⟨"x", 1, []⟩ ∧
    lookupS (gauge (counter mEmpty "x" 1 []) "x" 5 []).gauges "x" =
      some ⟨"x", 5, []⟩ := by
  constructor
  · decide
  · decide

/-- C6 (amended): registering the same metric name as two different kinds
does not fail at registration time: the kinds live in disjoint maps, so in
every state the later `gauge` registration leaves the counter series map
untouched and installs the gauge series beside it. -/
theorem c6_kinds_in_separate_maps (m : MState) (name : String) (vc : Int) (vg : ℚ)
    (tags : List (String × String)) :
    (gauge (counter m name vc tags) name vg tags).counters =
      (counter m name vc tags).counters ∧
    lookupS (gauge (counter m name vc tags) name vg tags).gauges
      (get_key name tags) = some ⟨name, vg, tags⟩ :=
  ⟨rfl, lookupS_setS _ _ _⟩

/-! ### Claim C10 -/

/-- C10: the series-key construction is not injective — the distinct
logical identities `("x[a=1]", no tags)` and `("x", tags a=1)` map to
the same key, and counter increments under the two identities accumulate
into one shared series (a single map entry holding 1 + 4 = 5). -/
theorem c10_key_collision :
    get_key "x[a=1]" [] = get_key "x" [("a", "1")] ∧
    ("x[a=1]", ([] : List (String × String))) ≠ ("x", [("a", "1")]) ∧
    (counter (counter mEmpty "x[a=1]" 1 []) "x" 4 [("a", "1")]).counters.length = 1 ∧
    (lookupS (counter (counter mEmpty "x[a=1]" 1 []) "x" 4 [("a", "1")]).counters
      "x[a=1]").map CounterE.value = some 5 := by
  refine ⟨?_, ?_, ?_, ?_⟩ <;> decide

/-! ## `MiniLogger` (claims C2, C9)

`MiniLogger._log` builds the `log_data` dictionary modelled here: base
fields, then the context copy under the single key "context", then the
trace/span ids when the associated tracer has an active trace, then the
call-specific `extra` entries — each added only when its key is not
already present.  Timestamps are opaque strings supplied by the caller. -/

/-- A value stored in a log record: a string, a trace/span identifier, the
Python `None` (the `span_id` field when no span is open), or the nested
context dictionary. -/
inductive LVal where
  | str : String → LVal
  | idv : Nat → LVal
  | null : LVal
  | tbl : List (String × String) → LVal
deriving DecidableEq

/-- A `MiniLogger`: name, numeric minimum level, and mutable context. -/
structure Logger where
  name : String
  level : Nat
  context : List (String × String)
deriving DecidableEq

/-- The level table `MiniLogger.LEVELS`. -/
def LEVELS : List (String × Nat) :=
  [("DEBUG", 10), ("INFO", 20), ("WARNING", 30), ("ERROR", 40), ("CRITICAL", 50)]

/-- Model of `self.LEVELS.get(level_name, 0)` as used at the top of `_log`. -/
def levelValue (s : String) : Nat :=
  ((LEVELS.find? (fun p => p.1 = s)).map Prod.snd).getD 0

/-- The `span_id` value recorded from the tracer: the id when a span
pointer is set, Python `None` otherwise. -/
def optIdVal : Option Nat → LVal
  | some n => LVal.idv n
  | none => LVal.null

/-- Record lookup (`k in log_data` / `log_data[k]`). -/
def lookupR (r : List (String × LVal)) (k : String) : Option LVal :=
  (r.find? (fun p => p.1 = k)).map Prod.snd

/-- The record `_log` has built just before merging `extra`: base fields,
optional "context" entry, and the trace/span ids whenever the tracer's
`current_trace_id` is set. -/
def preRecord (lg : Logger) (tr : Option TState) (ts lvl msg : String) :
    List (String × LVal) :=
  let base := [("timestamp", LVal.str ts), ("level", LVal.str lvl),
               ("logger", LVal.str lg.name), ("message", LVal.str msg)]
  let r1 := if lg.context.isEmpty then base
            else base ++ [("context", LVal.tbl lg.context)]
  match tr with
  | some t =>
    match t.current_trace_id with
    | some tid => r1 ++ [("trace_id", LVal.idv tid),
                         ("span_id", optIdVal t.current_span_id)]
    | none => r1
  | none => r1

/-- The `extra` merge loop of `_log`: each call-specific entry is added
only when its key is not already in the record (`if k not in log_data`). -/
def mergeExtra (r : List (String × LVal)) : List (String × LVal) → List (String × LVal)
  | [] => r
  | (k, v) :: rest =>
    mergeExtra (if (lookupR r k).isSome then r else r ++ [(k, v)]) rest

/-- Model of `MiniLogger._log`: `none` when the call is filtered out by the minimum
level, otherwise the fully merged record. -/
def logRecord (lg : Logger) (tr : Option TState) (ts lvl msg : String)
    (extra : List (String × LVal)) : Option (List (String × LVal)) :=
  if levelValue lvl < lg.level then none
  else some (mergeExtra (preRecord lg tr ts lvl msg) extra)

theorem lookupR_append_left (l1 l2 : List (String × LVal)) (k : String) (v : LVal)
    (h : lookupR l1 k = some v) : lookupR (l1 ++ l2) k = some v := by
  induction l1 with
  | nil => simp [lookupR] at h
  | cons a l ih =>
    simp only [lookupR, List.find?, List.cons_append] at h ⊢
    cases hd : decide (a.1 = k) with
    | true => rw [hd] at h; exact h
    | false => rw [hd] at h; exact ih h

theorem lookupR_mergeExtra (extra : List (String × LVal)) :
    ∀ (r : List (String × LVal)) (k : String) (v : LVal),
      lookupR r k = some v → lookupR (mergeExtra r extra) k = some v := by
  induction extra with
  | nil => intro r k v h; exact h
  | cons a rest ih =>
    intro r k v h
    obtain ⟨ka, va⟩ := a
    simp only [mergeExtra]
    by_cases hx : (lookupR r ka).isSome
    · rw [if_pos hx]
      exact ih r k v h
    · rw [if_neg hx]
      exact ih _ k v (lookupR_append_left r [(ka, va)] k v h)

/-! ### Claim C2 -/

/-- C2 counterexample: the claim says call-specific data wins on key
collision.  With extra `message = "clobber"` against the base field
`message = "orig"` (level INFO, minimum level 20, no context, no tracer),
the emitted record keeps `"orig"`: `_log` adds an extra entry only when
its key is absent, so earlier-merged fields win. -/
theorem c2_extra_does_not_override :
    (logRecord ⟨"app", 20, []⟩ none "T" "INFO" "orig"
        [("message", LVal.str "clobber")]).bind (fun r => lookupR r "message") =
      some (LVal.str "orig") ∧
    LVal.str "orig" ≠ LVal.str "clobber" := by
  constructor
  · rfl
  · decide

/-- C2 (amended): on key collision the call-specific data has lowest, not
highest, precedence: for every key already present in the record built
from base fields, context and trace ids, the emitted record keeps that
earlier value whatever `extra` holds; extras only fill absent keys. -/
theorem c2_existing_fields_win (lg : Logger) (tr : Option TState)
    (ts lvl msg : String) (extra : List (String × LVal)) (k : String) (v : LVal)
    (hlvl : ¬ levelValue lvl < lg.level)
    (hk : lookupR (preRecord lg tr ts lvl msg) k = some v) :
    (logRecord lg tr ts lvl msg extra).bind (fun r => lookupR r k) = some v := by
  unfold logRecord
  rw [if_neg hlvl]
  exact lookupR_mergeExtra extra _ k v hk

/-- C2 witness: the amended theorem at the concrete collision input of the
counterexample scenario. -/
theorem c2_existing_fields_win_witness :
    (logRecord ⟨"app", 20, []⟩ none "T" "INFO" "orig"
        [("message", LVal.str "clobber")]).bind (fun r => lookupR r "message") =
      some (LVal.str "orig") ∧ ¬ levelValue "INFO" < 20 :=
  ⟨c2_existing_fields_win ⟨"app", 20, []⟩ none "T" "INFO" "orig"
      [("message", LVal.str "clobber")] "message" (LVal.str "orig")
      (by decide) (by decide),
   by decide⟩

/-! ### Claim C9 -/

/-- A tracer on which only `start_trace` was called: a trace is active but
no span was ever opened. -/
def c9TraceOnly : TState := start_trace (initState 0)

/-- C9 counterexample: the claim says a log emitted while no span is open
carries neither a `trace_id` nor a `span_id`.  After an explicit
`start_trace` with no span opened (open registry empty), the record does
carry `trace_id = 0` and a `span_id` entry holding Python `None`, because
`_log` keys the annotation on `current_trace_id`, not on an open span. -/
theorem c9_trace_without_span_carries_ids :
    c9TraceOnly.active_spans = [] ∧
    (logRecord ⟨"app", 20, []⟩ (some c9TraceOnly) "T" "INFO" "m" []).bind
      (fun r => lookupR r "trace_id") = some (LVal.idv 0) ∧
    (logRecord ⟨"app", 20, []⟩ (some c9TraceOnly) "T" "INFO" "m" []).bind
      (fun r => lookupR r "span_id") = some LVal.null := by
  refine ⟨rfl, rfl, rfl⟩

/-- C9 (amended): a passed-level log record carries `trace_id`/`span_id`
exactly when the tracer has an active trace (`current_trace_id` set): in
that case `trace_id` is the active trace id and `span_id` is the
active-span pointer (the open span's id while one is open, Python `None`
otherwise, e.g. right after `start_trace`); with no active trace both keys
are absent. -/
theorem c9_ids_iff_trace_active (lg : Logger) (t : TState) (ts lvl msg : String)
    (hlvl : ¬ levelValue lvl < lg.level) :
    (logRecord lg (some t) ts lvl msg []).bind (fun r => lookupR r "trace_id") =
      t.current_trace_id.map LVal.idv ∧
    (logRecord lg (some t) ts lvl msg []).bind (fun r => lookupR r "span_id") =
      t.current_trace_id.map (fun _ => optIdVal t.current_span_id) := by
  unfold logRecord
  rw [if_neg hlvl]
  simp only [mergeExtra, Option.some_bind]
  unfold preRecord
  dsimp only
  cases ht : t.current_trace_id with
  | none =>
    by_cases hc : lg.context.isEmpty
    · rw [if_pos hc]
      exact ⟨rfl, rfl⟩
    · rw [if_neg hc]
      exact ⟨rfl, rfl⟩
  | some tid =>
    by_cases hc : lg.context.isEmpty
    · rw [if_pos hc]
      exact ⟨rfl, rfl⟩
    · rw [if_neg hc]
      exact ⟨rfl, rfl⟩

/-- C9 witness: the amended theorem at the trace-without-span state (an
active trace, empty registry, null span pointer). -/
theorem c9_ids_iff_trace_active_witness :
    (logRecord ⟨"app", 20, []⟩ (some c9TraceOnly) "T" "INFO" "m" []).bind
      (fun r => lookupR r "trace_id") = c9TraceOnly.current_trace_id.map LVal.idv ∧
    (logRecord ⟨"app", 20, []⟩ (some c9TraceOnly) "T" "INFO" "m" []).bind
      (fun r => lookupR r "span_id") =
      c9TraceOnly.current_trace_id.map (fun _ => optIdVal c9TraceOnly.current_span_id) :=
  c9_ids_iff_trace_active ⟨"app", 20, []⟩ c9TraceOnly "T" "INFO" "m" (by decide)

end MiniTelemetry
